import Mathlib

/-!
Verification development for the ETAS catalog simulation engine
(`etas/simulation.py`): a shallow embedding of the branching-process
simulator (background generation, aftershock expansion, chunked streaming
orchestration) together with theorems settling the specification claims.

Conventions of the embedding:
* machine floats become exact rationals (`Q`); the transcendental kernel
  formulas (`inv_time_cdf_approx`) are embedded over `ℝ`;
* timestamps become rational "days since epoch", so `to_days` of a
  difference of timestamps is plain subtraction;
* every random draw of the program is dataflow-modelled: the values that
  `numpy` would produce are supplied explicitly through oracle records,
  so the simulator is a deterministic function of those draws;
* fallible or possibly non-terminating code (the polygon rejection loop,
  the generational while-loop) returns `Option`, with fuel standing for
  the unbounded iteration;
* external collaborators (numpy, scipy, shapely, pynverse, and the
  functions imported from `etas.inversion`, whose source is not part of
  the reviewed tree) are modelled as explicit function parameters.
-/

namespace Vetas

/-! Executable rational scalars. `Q` carries the same values as `ℚ`, but
its arithmetic is defined through the kernel-reducible primitives
`mkRat` / `Rat.divInt` (the library's rational arithmetic is marked
irreducible, which would make concrete runs of the embedding
unevaluatable); bridge lemmas identify each operation with the
corresponding operation of `ℚ`. -/

def Q : Type := Rat

instance : DecidableEq Q := inferInstanceAs (DecidableEq Rat)

instance : LT Q := ⟨fun a b => Rat.blt a b = true⟩

instance : LE Q := ⟨fun a b => Rat.blt b a = false⟩

instance (a b : Q) : Decidable (a ≤ b) :=
  inferInstanceAs (Decidable (Rat.blt b a = false))

instance (a b : Q) : Decidable (a < b) :=
  inferInstanceAs (Decidable (Rat.blt a b = true))

instance (n : ℕ) : OfNat Q n := ⟨mkRat n 1⟩

instance : NatCast Q := ⟨fun n => mkRat n 1⟩

instance : IntCast Q := ⟨fun z => mkRat z 1⟩

instance : Add Q :=
  ⟨fun a b => mkRat (a.num * b.den + b.num * a.den) (a.den * b.den)⟩

instance : Sub Q :=
  ⟨fun a b => mkRat (a.num * b.den - b.num * a.den) (a.den * b.den)⟩

instance : Mul Q := ⟨fun a b => mkRat (a.num * b.num) (a.den * b.den)⟩

instance : Neg Q := ⟨fun a => mkRat (-a.num) a.den⟩

instance : Div Q :=
  ⟨fun a b => Rat.divInt (a.num * b.den) (a.den * b.num)⟩

/-- iterated multiplication on `Q`. -/
def Q.pow (a : Q) : ℕ → Q
  | 0 => 1
  | n + 1 => Q.pow a n * a

instance : Pow Q ℕ := ⟨Q.pow⟩

/-- minimum on `Q`. -/
instance : Min Q := ⟨fun a b => if a ≤ b then a else b⟩

/-- the floor of a rational (the reduced denominator is positive, so
euclidean division of the numerator by it is the floor). -/
def Q.floor (x : Q) : ℤ := x.num / (x.den : ℤ)

/-- absolute value on `Q`. -/
def Q.abs (x : Q) : Q := if x < 0 then -x else x

/-- the identity bridge into the mathematical rationals. -/
def Q.toRat (x : Q) : ℚ := x

/-- ETAS parameter set θ, as stored in `parameters` / `theta`
(log-scale coefficients, see `parameter_dict2array`). -/
structure Params where
  log10_mu : Q
  log10_c : Q
  omega : Q
  log10_tau : Q
  log10_d : Q
  gamma_p : Q
  rho : Q
deriving DecidableEq

/-- one simulated event: a row of the catalog DataFrame with the columns
created by `generate_background_events` / `generate_aftershocks`. -/
structure Event where
  idx : ℕ
  time : Q
  latitude : Q
  longitude : Q
  magnitude : Q
  parent : ℕ
  generation : ℕ
  is_background : Bool
  gen_0_parent : ℕ
  expected_n_aftershocks : Q
  n_aftershocks : ℕ
  xi_plus_1 : Q
deriving DecidableEq

/-- a raw row (location, time, magnitude) before reindexing, as built in
`generate_background_events` or supplied as an auxiliary catalog row. -/
structure BgRow where
  latitude : Q
  longitude : Q
  time : Q
  magnitude : Q
deriving DecidableEq

/-- Modelled from the spec: external mathematical collaborators.
`pow10` is `np.power(10, ·)`; `rsin`/`rcos` are `np.sin`/`np.cos`;
`haversine` (arguments `lat1 lat2 lon1 lon2 earth_radius`, in the radian
convention of the call sites) and `expectedAft` stand for
`etas.inversion.haversine` and `etas.inversion.expected_aftershocks`
specialized to the run's `[theta_without_mu, mc - delta_m/2]`; the module
`etas.inversion` is not among the sources, and the spec describes these
as the degree-length conversion and the productivity law. -/
structure MathCtx where
  pow10 : Q → Q
  rsin : Q → Q
  rcos : Q → Q
  haversine : Q → Q → Q → Q → Q → Q
  expectedAft : Q → Q

/-- a simple polygon region: `bounds`, the shapely containment test, and
the two `polygon_surface` areas used by `generate_background_events`
(polygon area and bounding-rectangle area). -/
structure Region where
  min_lat : Q
  min_lon : Q
  max_lat : Q
  max_lon : Q
  inPoly : Q → Q → Bool
  area : Q
  rect_area : Q

/-- Modelled from the spec: `np.round` rounds halves to even; the result
feeds `int(...)` on an integral float, hence an integer. -/
def npRound (x : Q) : ℤ :=
  if x - (Q.floor x : Q) < 1/2 then Q.floor x
  else if 1/2 < x - (Q.floor x : Q) then Q.floor x + 1
  else if Q.floor x % 2 = 0 then Q.floor x else Q.floor x + 1

/-- Modelled from the spec: `etas.inversion.round_half_up` (module not in
the sources); the spec declares magnitudes "rounded magnitude (nearest
0.1, half-up)", i.e. round to `d` decimals with ties going up. -/
def round_half_up (x : Q) (d : ℕ) : Q :=
  (Q.floor (x * 10 ^ d + 1/2) : Q) / 10 ^ d

/-- stable insertion of a row into a time-sorted list. -/
def insertTime (r : BgRow) : List BgRow → List BgRow
  | [] => [r]
  | x :: xs => if r.time < x.time then r :: x :: xs else x :: insertTime r xs

/-- embedding of `sort_values(by="time")` on raw rows. -/
def sortByTime : List BgRow → List BgRow
  | [] => []
  | x :: xs => insertTime x (sortByTime xs)

/-- random draws consumed by `generate_background_events` (and by
`simulate_background_location`): the global numpy stream, dataflow-modelled.
`poissonCount` is the value of `np.random.poisson(lam)` at the given mean,
`locDraw` the uniform draws in the bounding rectangle, `timeDraw` the
uniform draws in `[0, timewindow_length)`, `magDraw` the
`simulate_magnitudes` outputs, `offspringDraw i lam` the per-event
`np.random.poisson(lam)` draws. `entropy` is the operating-system entropy
consumed by the argumentless `np.random.seed()` inside
`simulate_background_location`; `uDraw`, `chDraw`, `gDraw` are the
uniform, choice and standard-gaussian draws of that function under that
reseed. -/
structure BgOracle where
  poissonCount : Q → ℕ
  locDraw : ℕ → Q × Q
  timeDraw : ℕ → Q
  magDraw : ℕ → Q
  offspringDraw : ℕ → Q → ℕ
  entropy : ℕ
  uDraw : ℕ → ℕ → Q
  chDraw : ℕ → ℕ → Q
  gDraw : ℕ → ℕ → Q × Q

/-- empirical background density input (`background_lats`,
`background_lons`, `background_probs`, `gaussian_scale`). -/
structure BgProbs where
  lats : List Q
  lons : List Q
  probs : List Q
  scale : Q
deriving DecidableEq

/-- embedding of `simulate_background_location` (the `grid=False` branch
used by `generate_background_events`): the function begins with an
argumentless `np.random.seed()`, so all its draws are functions of fresh
entropy, not of any caller-established seed; candidates are kept when
their supplied probability is at least a uniform draw, then `n` choices
are resampled with replacement and jittered by a gaussian of scale
`scale`. -/
def simulate_background_location (entropy : ℕ) (uDraw chDraw : ℕ → ℕ → Q)
    (gDraw : ℕ → ℕ → Q × Q) (latitudes longitudes background_probs : List Q)
    (scale : Q) (n : ℕ) : List (Q × Q) :=
  let m := background_probs.length
  let keepIdxs := (List.range m).filter
    (fun i => decide (uDraw entropy i ≤ background_probs.getD i 0))
  let sample_lats := keepIdxs.map (fun i => latitudes.getD i 0)
  let sample_lons := keepIdxs.map (fun i => longitudes.getD i 0)
  (List.range n).map (fun j =>
    let c := (Q.floor (chDraw entropy j)).toNat
    (sample_lats.getD c 0 + (gDraw entropy j).1 * scale,
     sample_lons.getD c 0 + (gDraw entropy j).2 * scale))

/-- configuration of one `generate_background_events` call. -/
structure BgConfig where
  R : Region
  tw_start : Q
  tw_end : Q
  theta : Params
  beta : Q
  mc : Q
  delta_m : Q

/-- the expected number of background events,
`np.power(10, parameters["log10_mu"]) * area * timewindow_length`. -/
def expected_n_background (ctx : MathCtx) (cfg : BgConfig) : Q :=
  ctx.pow10 cfg.theta.log10_mu * cfg.R.area * (cfg.tw_end - cfg.tw_start)

/-- one rejection-sampling attempt: draw `n_gen` uniform points starting
at stream position `start`, keep those inside the polygon, head `n_bg`. -/
def bgLocAttempt (R : Region) (draw : ℕ → Q × Q) (start n_gen n_bg : ℕ) :
    List (Q × Q) :=
  ((((List.range n_gen).map (fun i => draw (start + i))).filter
    (fun p => R.inPoly p.1 p.2)).take n_bg)

/-- the `while len(catalog) != n_background` retry loop of
`generate_background_events`, with fuel standing for the unbounded
iteration (the loop has no cap; `none` models non-termination). -/
def bgLocLoop (R : Region) (draw : ℕ → Q × Q) (n_gen n_bg : ℕ) :
    ℕ → ℕ → Option (List (Q × Q))
  | 0, _ => none
  | fuel + 1, start =>
      let att := bgLocAttempt R draw start n_gen n_bg
      if att.length = n_bg then some att
      else bgLocLoop R draw n_gen n_bg fuel (start + n_gen)

/-- the first location batch: the empirical-density branch when
`background_probs` is supplied, the uniform branch otherwise. -/
def bgFirstBatch (o : BgOracle) (probs : Option BgProbs) (n_gen : ℕ) :
    List (Q × Q) :=
  match probs with
  | some pb =>
      simulate_background_location o.entropy o.uDraw o.chDraw o.gDraw
        pb.lats pb.lons pb.probs pb.scale n_gen
  | none => (List.range n_gen).map (fun i => o.locDraw i)

/-- assembly of the background catalog rows from the accepted locations:
uniform times in the window, sampled magnitudes, sort by time, 1-based
reindex, `gen_0_parent = index`, productivity and realized offspring. -/
def buildBgEvents (ctx : MathCtx) (o : BgOracle) (cfg : BgConfig)
    (locs : List (Q × Q)) : List Event :=
  let rows := locs.enum.map (fun p =>
    ({ latitude := p.2.1, longitude := p.2.2,
       time := cfg.tw_start + o.timeDraw p.1,
       magnitude := o.magDraw p.1 } : BgRow))
  let sorted := sortByTime rows
  sorted.enum.map (fun p =>
    let i := p.1 + 1
    let ex := ctx.expectedAft p.2.magnitude
    { idx := i, time := p.2.time, latitude := p.2.latitude,
      longitude := p.2.longitude, magnitude := p.2.magnitude,
      parent := 0, generation := 0, is_background := true,
      gen_0_parent := i, expected_n_aftershocks := ex,
      n_aftershocks := o.offspringDraw p.1 ex, xi_plus_1 := 1 })

/-- embedding of `generate_background_events`: Poisson count at mean
`10^log10_mu * area * window_length`, 20%-oversampled rejection sampling
against the polygon (retrying with fresh uniforms until exactly the
realized count survives), then row assembly. -/
def generate_background_events (ctx : MathCtx) (o : BgOracle)
    (cfg : BgConfig) (probs : Option BgProbs) (fuel : ℕ) :
    Option (List Event) :=
  let n_bg := o.poissonCount (expected_n_background ctx cfg)
  let n_gen :=
    (npRound ((n_bg : Q) * cfg.R.rect_area / cfg.R.area * (12/10))).toNat
  let first := ((bgFirstBatch o probs n_gen).filter
      (fun p => cfg.R.inPoly p.1 p.2)).take n_bg
  let locs? := if first.length = n_bg then some first
               else bgLocLoop cfg.R o.locDraw n_gen n_bg fuel n_gen
  match locs? with
  | none => none
  | some locs => some (buildBgEvents ctx o cfg locs)

/-- random draws consumed by one `generate_aftershocks` call: `deltas` is
the single batch produced by the temporal kernel sampler
(`simulate_aftershock_time` or `simulate_aftershock_time_approx`),
`radiusDraw` the `simulate_aftershock_radius` outputs, `angleDraw` the
uniform azimuths, `magDraw` the `simulate_magnitudes` outputs and
`offspringDraw i lam` the per-child `np.random.poisson(lam)` draws. -/
structure AftOracle where
  deltas : List Q
  radiusDraw : ℕ → Q
  angleDraw : ℕ → Q
  magDraw : ℕ → Q
  offspringDraw : ℕ → Q → ℕ

/-- configuration of one `generate_aftershocks` call. -/
structure AftConfig where
  theta : Params
  beta : Q
  mc : Q
  delta_m : Q
  timewindow_end : Q
  timewindow_length : Q
  auxiliary_end : Option Q
  poly : Option (Q → Q → Bool)
  earth_radius : Q := 63781/10

/-- the candidate children: each source row repeated `n_aftershocks`
times (`sources.loc[sources.index.repeat(sources.n_aftershocks)]`),
paired positionally with the batch of time deltas. -/
def aftCandidates (sources : List Event) (deltas : List Q) :
    List (Event × Q) :=
  (sources.flatMap (fun s => List.replicate s.n_aftershocks s)).zip deltas

/-- the three sequential `query` filters on candidate children:
`time_delta <= timewindow_length`, then `time <= timewindow_end` for
`time = parent_time + time_delta`, then (when a cutoff is given)
`time > auxiliary_end`. -/
def aftTimeFilter (len_tw tend : Q) (cutoff : Option Q)
    (cands : List (Event × Q)) : List (Event × Q) :=
  let s1 := cands.filter (fun p => decide (p.2 ≤ len_tw))
  let s2 := s1.filter (fun p => decide (p.1.time + p.2 ≤ tend))
  match cutoff with
  | some a => s2.filter (fun p => decide (a < p.1.time + p.2))
  | none => s2

/-- a located surviving child before magnitude assignment. -/
structure AftLoc where
  parentEv : Event
  delta : Q
  latitude : Q
  longitude : Q

/-- spatial placement of the time-surviving children: radius and azimuth
per child, haversine degree-length conversion at the parent latitude,
offsets added to the parent location. -/
def aftLocate (ctx : MathCtx) (o : AftOracle) (er : Q)
    (kept : List (Event × Q)) : List AftLoc :=
  kept.enum.map (fun q =>
    let par := q.2.1
    let r := o.radiusDraw q.1
    let phi := o.angleDraw q.1
    let degree_lon := ctx.haversine par.latitude par.latitude 0 1 er
    let degree_lat :=
      ctx.haversine (par.latitude - 1/2) (par.latitude + 1/2) 0 0 er
    { parentEv := par, delta := q.2.2,
      latitude := par.latitude + r * ctx.rcos phi / degree_lat,
      longitude := par.longitude + r * ctx.rsin phi / degree_lon })

/-- embedding of `generate_aftershocks`: one batch of
`sum(n_aftershocks)` time deltas, row repetition, the three time
filters, spatial placement, optional polygon filter, magnitudes,
generation and offspring bookkeeping, 0-based reindex. -/
def generate_aftershocks (ctx : MathCtx) (o : AftOracle) (cfg : AftConfig)
    (sources : List Event) (generation : ℕ) : List Event :=
  let total := (sources.map (fun s => s.n_aftershocks)).sum
  let all_deltas := o.deltas.take total
  let cands := aftCandidates sources all_deltas
  let kept := aftTimeFilter cfg.timewindow_length cfg.timewindow_end
    cfg.auxiliary_end cands
  let located := aftLocate ctx o cfg.earth_radius kept
  let inpoly : List AftLoc := match cfg.poly with
    | some f => located.filter (fun q => f q.latitude q.longitude)
    | none => located
  inpoly.enum.map (fun q =>
    let m := o.magDraw q.1
    let ex := ctx.expectedAft m
    { idx := q.1, time := q.2.parentEv.time + q.2.delta,
      latitude := q.2.latitude, longitude := q.2.longitude,
      magnitude := m, parent := q.2.parentEv.idx,
      generation := generation + 1, is_background := false,
      gen_0_parent := q.2.parentEv.gen_0_parent,
      expected_n_aftershocks := ex,
      n_aftershocks := o.offspringDraw q.1 ex, xi_plus_1 := 1 })

/-- random draws consumed by `prepare_auxiliary_catalog`. -/
structure AuxOracle where
  offspringDraw : ℕ → Q → ℕ

/-- embedding of `prepare_auxiliary_catalog`: auxiliary events become
generation 0, parent 0, not background, sorted by time and 1-based
reindexed, with productivity and per-row Poisson offspring. -/
def prepare_auxiliary_catalog (ctx : MathCtx) (o : AuxOracle)
    (aux : List BgRow) : List Event :=
  let sorted := sortByTime aux
  sorted.enum.map (fun p =>
    let i := p.1 + 1
    let ex := ctx.expectedAft p.2.magnitude
    { idx := i, time := p.2.time, latitude := p.2.latitude,
      longitude := p.2.longitude, magnitude := p.2.magnitude,
      parent := 0, generation := 0, is_background := false,
      gen_0_parent := i, expected_n_aftershocks := ex,
      n_aftershocks := o.offspringDraw p.1 ex, xi_plus_1 := 1 })

/-- configuration of one `simulate_catalog` call. -/
structure CatConfig where
  auxiliary_start : Q
  primary_start : Q
  simulation_end : Q
  R : Region
  theta : Params
  beta_main : Q
  beta_aftershock : Option Q
  mc : Q
  delta_m : Q
  filter_polygon : Bool
  approx_times : Bool

/-- the per-generation random draws of one realization. -/
structure CatOracle where
  bg : BgOracle
  auxO : AuxOracle
  aft : ℕ → AftOracle

/-- embedding of `catalog.index.max()`. -/
def maxIdx (cat : List Event) : ℕ := (cat.map (fun e => e.idx)).foldr max 0

/-- the generational `while True` loop of `simulate_catalog`: sources are
the current-generation events with positive realized offspring; the loop
stops when there are none, and otherwise expands one generation via
`generate_aftershocks` — invoked with `auxiliary_end = primary_start`
unconditionally — reindexes the children above the current maximal
index, drops those at or before `sim_start`, and appends. Fuel stands
for the unbounded loop; `none` models non-termination. -/
def simCatalogLoop (ctx : MathCtx) (aftO : ℕ → AftOracle) (cfg : CatConfig)
    (sim_start len_tw : Q) : ℕ → ℕ → List Event → Option (List Event)
  | 0, g, cat =>
      if (cat.filter (fun e =>
          decide (e.generation = g) && decide (0 < e.n_aftershocks))).isEmpty
      then some cat else none
  | fuel + 1, g, cat =>
      let sources := cat.filter (fun e =>
        decide (e.generation = g) && decide (0 < e.n_aftershocks))
      if sources.isEmpty then some cat
      else
        let acfg : AftConfig :=
          { theta := cfg.theta,
            beta := cfg.beta_aftershock.getD cfg.beta_main,
            mc := cfg.mc, delta_m := cfg.delta_m,
            timewindow_end := cfg.simulation_end,
            timewindow_length := len_tw,
            auxiliary_end := some cfg.primary_start,
            poly := none }
        let aft := generate_aftershocks ctx (aftO g) acfg sources g
        let m := maxIdx cat
        let aft := aft.map (fun e => { e with idx := e.idx + m + 1 })
        let aft := aft.filter (fun e => decide (sim_start < e.time))
        simCatalogLoop ctx aftO cfg sim_start len_tw fuel (g + 1) (cat ++ aft)

/-- embedding of `simulate_catalog`: background events over the window
starting at `primary_start` when an auxiliary catalog is supplied and at
`auxiliary_start` otherwise, optional auxiliary generation 0 (with the
background indices shifted above the auxiliary ones), the generational
loop with `timewindow_length = simulation_end - auxiliary_start`, the
final `time > primary_start` filter and the optional polygon re-filter. -/
def simulate_catalog (ctx : MathCtx) (o : CatOracle) (cfg : CatConfig)
    (auxCatalog : Option (List BgRow)) (probs : Option BgProbs)
    (bgFuel genFuel : ℕ) : Option (List Event) :=
  let sim_start := match auxCatalog with
    | some _ => cfg.primary_start
    | none => cfg.auxiliary_start
  let bgcfg : BgConfig :=
    { R := cfg.R, tw_start := sim_start, tw_end := cfg.simulation_end,
      theta := cfg.theta, beta := cfg.beta_main, mc := cfg.mc,
      delta_m := cfg.delta_m }
  match generate_background_events ctx o.bg bgcfg probs bgFuel with
  | none => none
  | some background =>
    let catalog := match auxCatalog with
      | some aux =>
          let auxcat := prepare_auxiliary_catalog ctx o.auxO aux
          let shift := maxIdx auxcat + 1
          (background.map (fun e => { e with idx := e.idx + shift })) ++ auxcat
      | none => background
    let len_tw := cfg.simulation_end - cfg.auxiliary_start
    match simCatalogLoop ctx o.aft cfg sim_start len_tw genFuel 0 catalog with
    | none => none
    | some cat =>
      let cat := cat.filter (fun e => decide (cfg.primary_start < e.time))
      if cfg.filter_polygon then
        some (cat.filter (fun e => cfg.R.inPoly e.latitude e.longitude))
      else some cat

/-- a row of the accumulated `simulations` DataFrame inside
`ETASSimulation.simulate`: a catalog event tagged with its
`catalog_id`. -/
structure SimRow where
  ev : Event
  catalog_id : ℕ
deriving DecidableEq

/-- the per-emission processing of the accumulated buffer: the
time/magnitude `query`, the magnitude rounding `map`, the polygon
re-filter. -/
def emitChunk (keep1 : α → Bool) (post : α → α) (keep2 : α → Bool)
    (l : List α) : List α :=
  ((l.filter keep1).map post).filter keep2

/-- the chunked accumulation loop of `ETASSimulation.simulate` over the
remaining realization ids: each realization is appended to the buffer; a
chunk is emitted (and the buffer cleared) when `sim_id % chunksize == 0`
or `sim_id` is the last id. -/
def chunkLoopIds (k last : ℕ) (realize : ℕ → List α) (keep1 : α → Bool)
    (post : α → α) (keep2 : α → Bool) : List ℕ → List α → List (List α)
  | [], _ => []
  | i :: rest, buffer =>
      let buffer := buffer ++ realize i
      if i % k = 0 ∨ i = last then
        emitChunk keep1 post keep2 buffer ::
          chunkLoopIds k last realize keep1 post keep2 rest []
      else chunkLoopIds k last realize keep1 post keep2 rest buffer

/-- orchestrator-level configuration for one `simulate` call:
`m_threshold` defaults to `m_ref` in the caller; the catalog-level
configuration carries the window, region and parameters. -/
structure SimConfig where
  cfg : CatConfig
  m_threshold : Q

/-- the cut `m_cut = m_threshold - delta_m / 2`. -/
def SimConfig.m_cut (s : SimConfig) : Q := s.m_threshold - s.cfg.delta_m / 2

/-- the emission-time row predicate of `simulate`:
`time>=primary_start and time<=simulation_end and magnitude>=m_cut`. -/
def simKeepQuery (s : SimConfig) (r : SimRow) : Bool :=
  decide (s.cfg.primary_start ≤ r.ev.time) &&
  decide (r.ev.time ≤ s.cfg.simulation_end) &&
  decide (s.m_cut ≤ r.ev.magnitude)

/-- the emission-time magnitude rounding of `simulate`:
`round_half_up(simulations.magnitude, 1)`. -/
def simRound (r : SimRow) : SimRow :=
  { r with ev := { r.ev with magnitude := round_half_up r.ev.magnitude 1 } }

/-- the emission-time polygon re-filter of `simulate`. -/
def simKeepPoly (s : SimConfig) (r : SimRow) : Bool :=
  s.cfg.R.inPoly r.ev.latitude r.ev.longitude

/-- embedding of the chunked generator `ETASSimulation.simulate`:
`realizeCat i` is the catalog of realization `i` (one `simulate_catalog`
run), tagged with `catalog_id = i`; chunks are emitted at
`sim_id % chunksize == 0` or at the final realization, each chunk being
the buffer filtered to the window and threshold, magnitude-rounded, and
polygon-filtered; the buffer is cleared after each emission. -/
def ETASSimulation.simulate (realizeCat : ℕ → List Event) (s : SimConfig)
    (n_simulations chunksize : ℕ) : List (List SimRow) :=
  chunkLoopIds chunksize (n_simulations - 1)
    (fun i => (realizeCat i).map (fun e => { ev := e, catalog_id := i }))
    (simKeepQuery s) simRound (simKeepPoly s)
    (List.range n_simulations) []

/-- Modelled from the spec: `np.random.seed()` with no argument reseeds
the global random source from operating-system entropy, discarding
whatever state (or caller-supplied seeding) it had. `ETASSimulation.simulate`
executes it before drawing anything (and `simulate_background_location`
executes it again), so the stream state entering the run is the entropy,
not the caller's seed. -/
def npSeedNoArg (state entropy : ℕ) : ℕ := entropy

/-- the columns of the DataFrames yielded by `simulate`:
`['latitude', 'longitude', 'magnitude', 'time'] + info_cols`, plus
`catalog_id` when more than one realization is requested. -/
def simulate_cols (info_cols : List String) (n_simulations : ℕ) :
    List String :=
  ["latitude", "longitude", "magnitude", "time"] ++ info_cols ++
    (if n_simulations ≠ 1 then ["catalog_id"] else [])

/-- the header row `pandas.DataFrame.to_csv` writes: the index column
name first when `index=True`, then the requested `columns` (all frame
columns when `columns=None`). -/
def to_csv_header (df_cols : List String) (writeIndex : Bool)
    (indexName : String) (columns : Option (List String)) : List String :=
  (if writeIndex then [indexName] else []) ++ columns.getD df_cols

/-- the column list of the plain-format (`fmt='ch'`) CSV written by
`simulate_to_csv`: `to_csv` is called with `header=True`, `columns=None`
and `index=False` on frames whose columns are `simulate_cols` and whose
index is named `id`. -/
def simulate_to_csv_plain_header (info_cols : List String)
    (n_simulations : ℕ) : List String :=
  to_csv_header (simulate_cols info_cols n_simulations) false "id" none

/-- the two failure modes of `ETASSimulation.prepare` (the spec's
`ConsistencyError`): the merge length assertion and the
`np.testing.assert_allclose` magnitude assertion. -/
inductive ConsistencyError where
  | mergeMismatch : ConsistencyError
  | magnitudeMismatch : ConsistencyError
deriving DecidableEq

/-- a row of the real training catalog
(`inversion_params.catalog[["latitude", "longitude", "time", "magnitude"]]`),
keyed by its index. -/
structure CatRow where
  idx : ℕ
  latitude : Q
  longitude : Q
  time : Q
  magnitude : Q
deriving DecidableEq

/-- the `how='left'` index-on-index merge of `prepare`: every source row
is kept; a source row with `m` matches in the right catalog becomes `m`
rows carrying the matched magnitude, and an unmatched source row becomes
one row with a NaN magnitude (`none`). -/
def mergeLeft (srcIdx : List ℕ) (cat : List CatRow) :
    List (ℕ × Option Q) :=
  srcIdx.flatMap (fun i =>
    let ms := cat.filter (fun r => r.idx == i)
    if ms.isEmpty then [(i, none)] else ms.map (fun r => (i, some r.magnitude)))

/-- embedding of `pandas.Series.min` with its default `skipna=True`: the minimum of
the non-NaN entries, NaN (`none`) when there are none. -/
def seriesMin : List (Option Q) → Option Q
  | [] => none
  | none :: rest => seriesMin rest
  | some x :: rest =>
      match seriesMin rest with
      | none => some x
      | some y => some (min x y)

/-- embedding of `np.testing.assert_allclose` with its defaults `rtol=1e-7, atol=0`:
succeeds when `|actual - desired| <= rtol * |desired|`. -/
def assert_allclose (actual desired : Q) : Bool :=
  decide (Q.abs (actual - desired) ≤ 1 / 10 ^ 7 * Q.abs desired)

/-- embedding of the checking part of `ETASSimulation.prepare`: the
source events are index-merged with the real catalog attributes; the
call aborts when the merge changes the row count, and otherwise when the
minimal merged magnitude is not `allclose` to `m_ref` (a NaN minimum —
no matched magnitude at all — also fails that assertion). -/
def ETASSimulation.prepare (srcIdx : List ℕ) (cat : List CatRow)
    (m_ref : Q) : Except ConsistencyError Unit :=
  let merged := mergeLeft srcIdx cat
  if merged.length ≠ srcIdx.length then Except.error ConsistencyError.mergeMismatch
  else
    match seriesMin (merged.map (fun p => p.2)) with
    | none => Except.error ConsistencyError.magnitudeMismatch
    | some mmin =>
        if assert_allclose mmin m_ref then Except.ok ()
        else Except.error ConsistencyError.magnitudeMismatch

/-- the per-sample NaN patching of `inverse_upper_gamma_ext` for a
non-positive shape: where the library solver produced NaN (`none`), the
per-sample fallback minimizer's output is substituted. -/
def patchNaN (minimizer : Q → Q) (y : List Q)
    (result : List (Option Q)) : List Q :=
  (y.zip result).map (fun p =>
    match p.2 with
    | some r => r
    | none => minimizer p.1)

/-- embedding of `inverse_upper_gamma_ext`: for a positive shape the
closed-form `gammainccinv`-based inverse (external, a parameter); for a
non-positive shape the `pynverse` solver over the batch (`none`
modelling a NaN entry) patched per-sample by the Nelder-Mead fallback
minimizer (external, a parameter, used unconditionally — `scipy`'s
`minimize` returns `res.x[0]` whether or not it converged, and no
exception is raised on an unresolved sample). -/
def inverse_upper_gamma_ext (gammaInv : Q → Q) (solver : Q → Option Q)
    (minimizer : Q → Q) (a : Q) (y : List Q) : List Q :=
  if 0 < a then y.map gammaInv
  else patchNaN minimizer y (y.map solver)

/-- embedding of `inv_time_cdf_approx` over `ℝ` (powers are real
powers): the piecewise closed-form inverse of the analytic CDF
approximation; note the branch condition compares the probability `p`
with the time constant `tau`. -/
noncomputable def inv_time_cdf_approx (p c tau omega : ℝ) : ℝ :=
  let part_a := -1 / omega * ((tau + c) ^ (-omega) - c ^ (-omega))
  let part_b := Real.exp 1 * (tau + c) ^ (-(1 + omega)) * (tau / Real.exp 1)
  let k1 := 1 / (part_a + part_b)
  let k2 := k1 * Real.exp 1 / (tau + c) ^ (1 + omega)
  let res_a := (c ^ (-omega) - omega * p / k1) ^ (-1 / omega) - c
  let res_b := Real.log ((p - part_a / (part_a + part_b)) * (-1) / (tau * k2)
    + Real.exp (-1)) * (-tau)
  if p < tau then res_a else res_b

/-! Concrete model instantiations used by witnesses and counterexamples.
The external collaborators (numpy draws, shapely containment, the
`etas.inversion` helpers) are instantiated with simple concrete values;
every instantiation is a possible behaviour of the modelled library. -/

/-- a concrete external-math instantiation: `pow10` constant 1, sine 0 /
cosine 1 (exact at azimuth 0), degree lengths 1, productivity 0. -/
def modelCtx : MathCtx :=
  { pow10 := fun _ => 1, rsin := fun _ => 0, rcos := fun _ => 1,
    haversine := fun _ _ _ _ _ => 1, expectedAft := fun _ => 0 }

/-- the unit-square region with trivial containment. -/
def modelRegion : Region :=
  { min_lat := 0, min_lon := 0, max_lat := 1, max_lon := 1,
    inPoly := fun _ _ => true, area := 1, rect_area := 1 }

/-- the end-to-end scenario parameter values of the spec. -/
def modelTheta : Params :=
  { log10_mu := -3, log10_c := -2, omega := 1/2, log10_tau := 2,
    log10_d := -1, gamma_p := 1, rho := 3/5 }

/-- Modelled from the spec: a possible draw sequence of the numpy global
source as a function of its state — the Poisson count draw is `state % 2`
and all remaining draws are fixed, so distinct entropy values yield
distinct realizations. -/
def modelBgOracle (state : ℕ) : BgOracle :=
  { poissonCount := fun _ => state % 2, locDraw := fun _ => (1/2, 1/2),
    timeDraw := fun _ => 1, magDraw := fun _ => 3,
    offspringDraw := fun _ _ => 0, entropy := state,
    uDraw := fun _ _ => 0, chDraw := fun _ _ => 0,
    gDraw := fun _ _ => (0, 0) }

/-- an aftershock oracle with no draws (no offspring are realized). -/
def modelAftOracle : AftOracle :=
  { deltas := [], radiusDraw := fun _ => 0, angleDraw := fun _ => 0,
    magDraw := fun _ => 3, offspringDraw := fun _ _ => 0 }

/-- the per-realization draws as a function of the stream state. -/
def modelCatOracle (state : ℕ) : CatOracle :=
  { bg := modelBgOracle state, auxO := ⟨fun _ _ => 0⟩,
    aft := fun _ => modelAftOracle }

/-- a concrete catalog configuration: window `[0, 10]`,
`primary_start = 0`, unit square, `mc = 2`, `delta_m = 0.1`,
`filter_polygon = False` as passed by `ETASSimulation.simulate`. -/
def modelCatCfg : CatConfig :=
  { auxiliary_start := 0, primary_start := 0, simulation_end := 10,
    R := modelRegion, theta := modelTheta, beta_main := 2,
    beta_aftershock := none, mc := 2, delta_m := 1/10,
    filter_polygon := false, approx_times := false }

/-- the orchestrator configuration over `modelCatCfg` with
`m_threshold = m_ref = 2`. -/
def modelSimCfg : SimConfig := { cfg := modelCatCfg, m_threshold := 2 }

/-- embedding of a full seeded `simulate` call: `caller_seed` is the
state the caller established on the global source before the call; the
argumentless `np.random.seed()` at the top of `simulate` replaces it
with fresh entropy before any draw, and all subsequent draws are a
function of the resulting state. -/
def simulate_run (caller_seed entropy n_simulations chunksize : ℕ) :
    List (List SimRow) :=
  let state := npSeedNoArg caller_seed entropy
  ETASSimulation.simulate
    (fun _ => (simulate_catalog modelCtx (modelCatOracle state) modelCatCfg
      none none 4 4).getD [])
    modelSimCfg n_simulations chunksize

/-- a background event at the given time that passes every
emission-time filter of `modelSimCfg`. -/
def mkBgEvent (t : Q) : Event :=
  { idx := 1, time := t, latitude := 1/2, longitude := 1/2,
    magnitude := 3, parent := 0, generation := 0, is_background := true,
    gen_0_parent := 1, expected_n_aftershocks := 0, n_aftershocks := 0,
    xi_plus_1 := 1 }

/-- the background event produced by the concrete witness run. -/
def bgWitnessEvent : Event :=
  { idx := 1, time := 1, latitude := 1/2, longitude := 1/2, magnitude := 3,
    parent := 0, generation := 0, is_background := true, gen_0_parent := 1,
    expected_n_aftershocks := 0, n_aftershocks := 0, xi_plus_1 := 1 }

/-- the background configuration of the concrete witness run. -/
def modelBgCfg : BgConfig :=
  { R := modelRegion, tw_start := 0, tw_end := 10, theta := modelTheta,
    beta := 2, mc := 2, delta_m := 1/10 }

/-- the source event of the concrete aftershock runs: one background
event at time 5 with one realized offspring. -/
def cexBg : Event :=
  { idx := 1, time := 5, latitude := 1/2, longitude := 1/2, magnitude := 3,
    parent := 0, generation := 0, is_background := true, gen_0_parent := 1,
    expected_n_aftershocks := 0, n_aftershocks := 1, xi_plus_1 := 1 }

/-- an aftershock oracle whose single time delta is 0 (the value the
approximate sampler returns at uniform draw 0). -/
def cexAftOracle : AftOracle :=
  { deltas := [0], radiusDraw := fun _ => 0, angleDraw := fun _ => 0,
    magDraw := fun _ => 3, offspringDraw := fun _ _ => 0 }

/-- a concrete `generate_aftershocks` configuration with cutoff 2. -/
def cexAftCfg : AftConfig :=
  { theta := modelTheta, beta := 2, mc := 2, delta_m := 1/10,
    timewindow_end := 10, timewindow_length := 10, auxiliary_end := some 2,
    poly := none }

/-- the child `generate_aftershocks` produces from `cexBg` under
`cexAftOracle` (before the loop reindexes it). -/
def cexChildRaw : Event :=
  { idx := 0, time := 5, latitude := 1/2, longitude := 1/2, magnitude := 3,
    parent := 1, generation := 1, is_background := false, gen_0_parent := 1,
    expected_n_aftershocks := 0, n_aftershocks := 0, xi_plus_1 := 1 }

/-- background draws for the counterexample run: one event at time 5
with one realized offspring. -/
def cexBgOracle : BgOracle :=
  { poissonCount := fun _ => 1, locDraw := fun _ => (1/2, 1/2),
    timeDraw := fun _ => 5, magDraw := fun _ => 3,
    offspringDraw := fun _ _ => 1, entropy := 0,
    uDraw := fun _ _ => 0, chDraw := fun _ _ => 0,
    gDraw := fun _ _ => (0, 0) }

/-- the per-realization draws of the counterexample run. -/
def cexCatOracle : CatOracle :=
  { bg := cexBgOracle, auxO := ⟨fun _ _ => 0⟩, aft := fun _ => cexAftOracle }

/-- the counterexample catalog configuration: window `[0, 10]`,
`primary_start = 2`, approximate temporal sampling. -/
def cexCatCfg : CatConfig :=
  { auxiliary_start := 0, primary_start := 2, simulation_end := 10,
    R := modelRegion, theta := modelTheta, beta_main := 2,
    beta_aftershock := none, mc := 2, delta_m := 1/10,
    filter_polygon := false, approx_times := true }

/-- the child event as it appears in the final catalog (reindexed by the
generational loop). -/
def cexChild : Event := { cexChildRaw with idx := 2 }

/-! Lemmas and claim theorems. -/

lemma Q.toRat_add (a b : Q) : (a + b).toRat = a.toRat + b.toRat :=
  (Rat.add_def' a.toRat b.toRat).symm

lemma Q.le_iff_toRat (a b : Q) : a ≤ b ↔ a.toRat ≤ b.toRat := Iff.rfl

lemma Q.lt_iff_toRat (a b : Q) : a < b ↔ a.toRat < b.toRat := Iff.rfl

lemma Q.toRat_zero : (0 : Q).toRat = 0 := by
  show mkRat 0 1 = (0 : ℚ)
  rw [← Rat.divInt_ofNat, Rat.zero_divInt]

lemma Q.le_add_right_of_nonneg {a d : Q} (h : (0 : Q) ≤ d) : a ≤ a + d := by
  rw [Q.le_iff_toRat, Q.toRat_add]
  rw [Q.le_iff_toRat, Q.toRat_zero] at h
  exact le_add_of_nonneg_right h

/-! Chunking lemmas for `ETASSimulation.simulate`. -/

lemma emitChunk_append (keep1 : α → Bool) (post : α → α) (keep2 : α → Bool)
    (l₁ l₂ : List α) :
    emitChunk keep1 post keep2 (l₁ ++ l₂)
      = emitChunk keep1 post keep2 l₁ ++ emitChunk keep1 post keep2 l₂ := by
  simp [emitChunk, List.filter_append, List.map_append]

lemma chunkLoopIds_length (k last : ℕ) (realize : ℕ → List α)
    (keep1 : α → Bool) (post : α → α) (keep2 : α → Bool) :
    ∀ (ids : List ℕ) (buffer : List α),
      (chunkLoopIds k last realize keep1 post keep2 ids buffer).length
        = (ids.filter (fun i => decide (i % k = 0 ∨ i = last))).length := by
  intro ids
  induction ids with
  | nil => intro buffer; rfl
  | cons i rest ih =>
      intro buffer
      by_cases h : i % k = 0 ∨ i = last
      · simp [chunkLoopIds, h, ih]
      · simp [chunkLoopIds, h, ih]

lemma chunkLoopIds_join (k last : ℕ) (realize : ℕ → List α)
    (keep1 : α → Bool) (post : α → α) (keep2 : α → Bool) :
    ∀ (ids : List ℕ) (buffer : List α), ids.getLast? = some last →
      (chunkLoopIds k last realize keep1 post keep2 ids buffer).flatten
        = emitChunk keep1 post keep2 (buffer ++ ids.flatMap realize) := by
  intro ids
  induction ids with
  | nil => intro buffer h; simp at h
  | cons i rest ih =>
      intro buffer h
      match rest, ih with
      | [], _ =>
          have hi : i = last := by simpa using h
          simp [chunkLoopIds, hi, emitChunk]
      | j :: rest', ih =>
          have h' : (j :: rest').getLast? = some last := by
            simpa [List.getLast?_cons_cons] using h
          by_cases hc : i % k = 0 ∨ i = last
          · have step : chunkLoopIds k last realize keep1 post keep2
                (i :: j :: rest') buffer
                = emitChunk keep1 post keep2 (buffer ++ realize i)
                  :: chunkLoopIds k last realize keep1 post keep2 (j :: rest') [] := by
              rw [chunkLoopIds]
              simp [hc]
            rw [step, List.flatten_cons, ih [] h', List.nil_append,
              ← emitChunk_append]
            simp [List.flatMap_cons, List.append_assoc]
          · have step : chunkLoopIds k last realize keep1 post keep2
                (i :: j :: rest') buffer
                = chunkLoopIds k last realize keep1 post keep2 (j :: rest')
                    (buffer ++ realize i) := by
              rw [chunkLoopIds]
              simp [hc]
            rw [step, ih (buffer ++ realize i) h']
            simp [List.flatMap_cons, List.append_assoc]

/-- C1 (counterexample): with `chunk_size = 10` and `n_realizations = 25`
the generator emits 4 chunks, of 1, 10, 10 and 4 realizations (emission
fires at `sim_id % chunksize == 0`, hence already after the first
realization), not 3 chunks of 10, 10 and 5 as the claim states. -/
theorem simulate_chunking_counterexample :
    (ETASSimulation.simulate (fun _ => [mkBgEvent 1]) modelSimCfg 25 10).map
        List.length = [1, 10, 10, 4]
    ∧ (ETASSimulation.simulate (fun _ => [mkBgEvent 1]) modelSimCfg 25 10).map
        List.length ≠ [10, 10, 5] := by
  constructor
  · decide
  · decide

/-- C1 (amended): a chunk is emitted exactly at realization ids divisible
by the chunk size or at the final realization, with the buffer cleared
after each emission — so for chunk_size 10 and 25 realizations there are
4 chunks of 1, 10, 10, 4 realizations — and the concatenation of all
emitted chunks equals the processed concatenation of all realizations
(hence is independent of the chunk size, matching an unchunked run on
the same seeds). -/
theorem simulate_chunking_amended :
    (∀ (realizeCat : ℕ → List Event) (s : SimConfig),
        (ETASSimulation.simulate realizeCat s 25 10).length = 4)
    ∧ (ETASSimulation.simulate (fun _ => [mkBgEvent 1]) modelSimCfg 25 10).map
        List.length = [1, 10, 10, 4]
    ∧ (∀ (realizeCat : ℕ → List Event) (s : SimConfig) (n k : ℕ),
        1 ≤ k → 1 ≤ n →
        (ETASSimulation.simulate realizeCat s n k).flatten
          = emitChunk (simKeepQuery s) simRound (simKeepPoly s)
              ((List.range n).flatMap
                (fun i => (realizeCat i).map (fun e => ⟨e, i⟩)))) := by
  refine ⟨?_, by decide, ?_⟩
  · intro realizeCat s
    rw [ETASSimulation.simulate, chunkLoopIds_length]
    decide
  · intro realizeCat s n k hk hn
    obtain ⟨m, rfl⟩ := Nat.exists_eq_add_of_le hn
    have hlast : (List.range (1 + m)).getLast? = some (1 + m - 1) := by
      have : 1 + m = m + 1 := Nat.add_comm 1 m
      rw [this, List.range_succ]
      simp
    rw [ETASSimulation.simulate, chunkLoopIds_join _ _ _ _ _ _ _ _ hlast,
      List.nil_append]

/-- C1 (witness): the amended theorem applied at 3 realizations and
chunk size 2. -/
theorem simulate_chunking_amended_witness :
    1 ≤ 2 ∧ 1 ≤ 3 ∧
    (ETASSimulation.simulate (fun _ => [mkBgEvent 1]) modelSimCfg 3 2).flatten
      = emitChunk (simKeepQuery modelSimCfg) simRound (simKeepPoly modelSimCfg)
          ((List.range 3).flatMap
            (fun i => ([mkBgEvent 1]).map (fun e => ⟨e, i⟩))) :=
  ⟨by decide, by decide,
    simulate_chunking_amended.2.2 (fun _ => [mkBgEvent 1]) modelSimCfg 3 2
      (by decide) (by decide)⟩

/-- C2 (counterexample): two `simulate` runs over identical parameters
and identical caller-established seeding (state 7) produce different
chunk sequences when the operating-system entropy consumed by the
argumentless `np.random.seed()` at the top of `simulate` differs: the
run is not a deterministic function of caller-supplied seeds. -/
theorem simulate_seed_counterexample :
    simulate_run 7 0 1 1 ≠ simulate_run 7 1 1 1 := by decide

/-- C2 (amended): the output chunk sequence of `simulate` is a
deterministic function of the parameters and of the entropy drawn by the
in-call reseed; it does not depend on the state the caller put the
global random source into (the argumentless `np.random.seed()` at the
top of `simulate` discards that state before any draw). -/
theorem simulate_seed_amended :
    ∀ (caller_seed1 caller_seed2 entropy n k : ℕ),
      simulate_run caller_seed1 entropy n k
        = simulate_run caller_seed2 entropy n k :=
  fun _ _ _ _ _ => rfl

lemma chunkLoopIds_mem_post (k last : ℕ) (realize : ℕ → List α)
    (keep1 : α → Bool) (post : α → α) (keep2 : α → Bool) :
    ∀ (ids : List ℕ) (buffer : List α),
      ∀ c ∈ chunkLoopIds k last realize keep1 post keep2 ids buffer,
        ∀ r ∈ c, ∃ r₀, r = post r₀ := by
  intro ids
  induction ids with
  | nil => intro buffer c hc; simp [chunkLoopIds] at hc
  | cons i rest ih =>
      intro buffer c hc r hr
      simp only [chunkLoopIds] at hc
      by_cases h : i % k = 0 ∨ i = last
      · rw [if_pos h] at hc
        rcases List.mem_cons.mp hc with hc | hc
        · subst hc
          simp only [emitChunk] at hr
          have h1 := (List.mem_filter.mp hr).1
          obtain ⟨r₀, _, hr₀⟩ := List.mem_map.mp h1
          exact ⟨r₀, hr₀.symm⟩
        · exact ih [] c hc r hr
      · rw [if_neg h] at hc
        exact ih _ c hc r hr

/-- C7 (counterexample): the plain-format CSV written by
`simulate_to_csv` has no `id` column: the yielded frames' index is named
`id`, but `to_csv` is invoked with `index=False`, so the index is not
written. -/
theorem csv_plain_id_counterexample :
    "id" ∉ simulate_to_csv_plain_header ["is_background"] 1 := by decide

/-- C7 (amended): every row of the plain-format output CSV has the
columns latitude, longitude, magnitude, time plus the requested info
columns (plus `catalog_id` when more than one realization is requested),
with magnitudes rounded half-up to the nearest 0.1; the `id`-named index
of the yielded frames is not written to the file. -/
theorem csv_plain_columns_amended :
    (∀ (info_cols : List String) (n : ℕ),
        simulate_to_csv_plain_header info_cols n
          = ["latitude", "longitude", "magnitude", "time"] ++ info_cols ++
              (if n ≠ 1 then ["catalog_id"] else []))
    ∧ (∀ (realizeCat : ℕ → List Event) (s : SimConfig) (n k : ℕ),
        ∀ c ∈ ETASSimulation.simulate realizeCat s n k, ∀ r ∈ c,
          ∃ x : Q, r.ev.magnitude = round_half_up x 1) := by
  constructor
  · intro info_cols n; rfl
  · intro realizeCat s n k c hc r hr
    obtain ⟨r₀, hr₀⟩ :=
      chunkLoopIds_mem_post _ _ _ _ _ _ _ _ c hc r hr
    exact ⟨r₀.ev.magnitude, by rw [hr₀]; rfl⟩

/-- C7 (witness): the amended theorem applied to a one-realization run. -/
theorem csv_plain_columns_amended_witness :
    [({ ev := mkBgEvent 1, catalog_id := 0 } : SimRow)]
        ∈ ETASSimulation.simulate (fun _ => [mkBgEvent 1]) modelSimCfg 1 1
    ∧ ({ ev := mkBgEvent 1, catalog_id := 0 } : SimRow)
        ∈ [({ ev := mkBgEvent 1, catalog_id := 0 } : SimRow)]
    ∧ ∃ x : Q,
        ({ ev := mkBgEvent 1, catalog_id := 0 } : SimRow).ev.magnitude
          = round_half_up x 1 :=
  ⟨by decide, by decide,
    csv_plain_columns_amended.2 (fun _ => [mkBgEvent 1]) modelSimCfg 1 1
      [({ ev := mkBgEvent 1, catalog_id := 0 } : SimRow)] (by decide)
      ({ ev := mkBgEvent 1, catalog_id := 0 } : SimRow) (by decide)⟩

lemma patchNaN_map_solver (minimizer : Q → Q) (solver : Q → Option Q) :
    ∀ y : List Q,
      patchNaN minimizer y (y.map solver)
        = y.map (fun v => (solver v).getD (minimizer v)) := by
  intro y
  induction y with
  | nil => rfl
  | cons a t ih =>
      simp only [List.map_cons, patchNaN, List.zip_cons_cons] at *
      cases solver a <;> simp_all [patchNaN]

/-- C3 (amended): for a non-positive shape parameter the exact-mode
inversion returns, per sample, the library solver's value where it is
defined and the per-sample fallback minimizer's value where the solver
produced NaN — unconditionally: the function has no error path (there is
no `NumericalInversionError` anywhere in the code), so a sample the
minimizer failed to invert is returned silently. -/
theorem inversion_fallback_amended (gammaInv : Q → Q) (solver : Q → Option Q)
    (minimizer : Q → Q) (a : Q) (y : List Q) (ha : ¬ 0 < a) :
    inverse_upper_gamma_ext gammaInv solver minimizer a y
      = y.map (fun v => (solver v).getD (minimizer v)) := by
  rw [inverse_upper_gamma_ext, if_neg ha, patchNaN_map_solver]

/-- C3 (witness): the amended theorem at shape −1 on a batch of one. -/
theorem inversion_fallback_witness :
    ¬ (0 : Q) < -1
    ∧ inverse_upper_gamma_ext (fun x => x) (fun _ => none) (fun _ => 5)
        (-1) [2]
      = ([2] : List Q).map
          (fun v => ((fun _ => (none : Option Q)) v).getD ((fun _ => (5 : Q)) v)) :=
  ⟨by decide,
    inversion_fallback_amended (fun x => x) (fun _ => none) (fun _ => 5)
      (-1) [2] (by decide)⟩

/-- C3 (counterexample): with the upper tail function `x + 3`, a solver
that resolves nothing and a (non-converged) minimizer output 1 at target
2, the call returns `[1]` even though `1 + 3 ≠ 2` — an unresolved sample
is returned silently; no `NumericalInversionError` is raised (no such
error exists in the code, and the return is unconditional). -/
theorem inversion_unresolved_counterexample :
    inverse_upper_gamma_ext (fun x => x) (fun _ => none) (fun _ => 1)
        (-1) [2] = [1]
    ∧ (fun x : Q => x + 3) 1 ≠ 2 := by
  exact ⟨by decide, by decide⟩

/-- C4: `prepare` raises (the spec's ConsistencyError) exactly when the
left merge of the source events with the real catalog attributes changes
the row count, or the minimal merged magnitude is not within the
`assert_allclose` tolerance of the declared reference magnitude (an
all-NaN magnitude column — no match at all — also fails that
comparison, as NaN is not close to anything); otherwise it completes
normally. -/
theorem prepare_consistency_iff (srcIdx : List ℕ) (cat : List CatRow)
    (m_ref : Q) :
    ((∃ e, ETASSimulation.prepare srcIdx cat m_ref = Except.error e) ↔
      ((mergeLeft srcIdx cat).length ≠ srcIdx.length ∨
        ∀ mmin, seriesMin ((mergeLeft srcIdx cat).map (fun p => p.2)) = some mmin →
          assert_allclose mmin m_ref = false))
    ∧ ((ETASSimulation.prepare srcIdx cat m_ref = Except.ok ()) ↔
      ¬ ((mergeLeft srcIdx cat).length ≠ srcIdx.length ∨
        ∀ mmin, seriesMin ((mergeLeft srcIdx cat).map (fun p => p.2)) = some mmin →
          assert_allclose mmin m_ref = false)) := by
  by_cases hlen : (mergeLeft srcIdx cat).length ≠ srcIdx.length
  · constructor
    · simp only [ETASSimulation.prepare, if_pos hlen]
      exact ⟨fun _ => Or.inl hlen, fun _ => ⟨ConsistencyError.mergeMismatch, rfl⟩⟩
    · simp only [ETASSimulation.prepare, if_pos hlen]
      constructor
      · intro h; cases h
      · intro h; exact absurd (Or.inl hlen) h
  · rcases hmin : seriesMin ((mergeLeft srcIdx cat).map (fun p => p.2)) with _ | mmin
    · constructor
      · simp only [ETASSimulation.prepare, if_neg hlen, hmin]
        refine ⟨fun _ => Or.inr ?_, fun _ => ⟨ConsistencyError.magnitudeMismatch, rfl⟩⟩
        intro m hm; exact absurd hm (by simp)
      · simp only [ETASSimulation.prepare, if_neg hlen, hmin]
        constructor
        · intro h; cases h
        · intro h
          exact absurd (Or.inr (fun m hm => absurd hm (by simp))) h
    · by_cases hac : assert_allclose mmin m_ref = true
      · constructor
        · simp only [ETASSimulation.prepare, if_neg hlen, hmin, if_pos hac]
          constructor
          · rintro ⟨e, he⟩; cases he
          · rintro (h | h)
            · exact absurd h hlen
            · have := h mmin rfl
              rw [hac] at this; cases this
        · simp only [ETASSimulation.prepare, if_neg hlen, hmin, if_pos hac]
          constructor
          · intro _
            rintro (h | h)
            · exact absurd h hlen
            · have := h mmin rfl
              rw [hac] at this; cases this
          · intro _; trivial
      · have hac' : assert_allclose mmin m_ref = false :=
          Bool.eq_false_iff.mpr hac
        constructor
        · simp only [ETASSimulation.prepare, if_neg hlen, hmin, if_neg hac]
          refine ⟨fun _ => Or.inr ?_, fun _ => ⟨ConsistencyError.magnitudeMismatch, rfl⟩⟩
          intro m hm
          cases hm
          exact hac'
        · simp only [ETASSimulation.prepare, if_neg hlen, hmin, if_neg hac]
          constructor
          · intro h; cases h
          · intro h
            refine absurd (Or.inr ?_) h
            intro m hm
            cases hm
            exact hac'

/-- C4 (witness): a source index with two matching catalog rows makes
the merge gain a row, and `prepare` fails. -/
theorem prepare_consistency_witness :
    ∃ e, ETASSimulation.prepare [0]
        [{ idx := 0, latitude := 0, longitude := 0, time := 0, magnitude := 3 },
         { idx := 0, latitude := 1, longitude := 1, time := 1, magnitude := 4 }]
        3 = Except.error e :=
  (prepare_consistency_iff [0]
    [{ idx := 0, latitude := 0, longitude := 0, time := 0, magnitude := 3 },
     { idx := 0, latitude := 1, longitude := 1, time := 1, magnitude := 4 }]
    3).1.mpr (Or.inl (by decide))

lemma insertTime_length (r : BgRow) :
    ∀ l : List BgRow, (insertTime r l).length = l.length + 1 := by
  intro l
  induction l with
  | nil => rfl
  | cons x xs ih =>
      by_cases h : r.time < x.time
      · simp [insertTime, h]
      · simp [insertTime, h, ih]

lemma sortByTime_length : ∀ l : List BgRow, (sortByTime l).length = l.length := by
  intro l
  induction l with
  | nil => rfl
  | cons x xs ih => simp [sortByTime, insertTime_length, ih]

lemma buildBgEvents_length (ctx : MathCtx) (o : BgOracle) (cfg : BgConfig)
    (locs : List (Q × Q)) :
    (buildBgEvents ctx o cfg locs).length = locs.length := by
  simp [buildBgEvents, sortByTime_length]

lemma bgLocLoop_length (R : Region) (draw : ℕ → Q × Q) (n_gen n_bg : ℕ) :
    ∀ (fuel start : ℕ) (locs : List (Q × Q)),
      bgLocLoop R draw n_gen n_bg fuel start = some locs →
      locs.length = n_bg := by
  intro fuel
  induction fuel with
  | zero => intro start locs h; simp [bgLocLoop] at h
  | succ f ih =>
      intro start locs h
      simp only [bgLocLoop] at h
      by_cases hc : (bgLocAttempt R draw start n_gen n_bg).length = n_bg
      · rw [if_pos hc] at h
        cases h
        exact hc
      · rw [if_neg hc] at h
        exact ih _ _ h

/-- C5: whenever `generate_background_events` succeeds, the produced
catalog has exactly the size drawn by the Poisson oracle at mean
`10^(log10_mu) × polygon area × window length in days` — the expected
count is computed as exactly that product and passed unchanged as the
Poisson intensity. -/
theorem background_poisson_mean (ctx : MathCtx) (o : BgOracle)
    (cfg : BgConfig) (probs : Option BgProbs) (fuel : ℕ) (cat : List Event)
    (h : generate_background_events ctx o cfg probs fuel = some cat) :
    cat.length = o.poissonCount
      (ctx.pow10 cfg.theta.log10_mu * cfg.R.area * (cfg.tw_end - cfg.tw_start)) := by
  simp only [generate_background_events] at h
  split at h
  · exact absurd h (by simp)
  · next locs heq =>
      have hc : cat = buildBgEvents ctx o cfg locs := by
        injection h with h'
        exact h'.symm
      subst hc
      rw [buildBgEvents_length]
      split at heq
      · next hfl =>
          injection heq with h'
          subst h'
          exact hfl
      · exact bgLocLoop_length _ _ _ _ _ _ _ heq

/-- C5 (witness): the theorem applied to a concrete successful run. -/
theorem background_poisson_mean_witness :
    generate_background_events modelCtx (modelBgOracle 1) modelBgCfg none 4
        = some [bgWitnessEvent]
    ∧ [bgWitnessEvent].length = (modelBgOracle 1).poissonCount
        (modelCtx.pow10 modelBgCfg.theta.log10_mu * modelBgCfg.R.area *
          (modelBgCfg.tw_end - modelBgCfg.tw_start)) :=
  ⟨by decide,
    background_poisson_mean modelCtx (modelBgOracle 1) modelBgCfg none 4
      [bgWitnessEvent] (by decide)⟩

lemma snd_mem_of_mem_enumFrom {α : Type _} :
    ∀ (l : List α) (n : ℕ) (p : ℕ × α), p ∈ l.enumFrom n → p.2 ∈ l := by
  intro l
  induction l with
  | nil => intro n p h; simp [List.enumFrom] at h
  | cons a t ih =>
      intro n p h
      rcases List.mem_cons.mp h with rfl | h
      · exact List.mem_cons_self _ _
      · exact List.mem_cons_of_mem _ (ih (n + 1) p h)

lemma snd_mem_of_mem_enum {α : Type _} (l : List α) (p : ℕ × α)
    (h : p ∈ l.enum) : p.2 ∈ l :=
  snd_mem_of_mem_enumFrom l 0 p h

lemma aftLocate_mem (ctx : MathCtx) (o : AftOracle) (er : Q)
    (kept : List (Event × Q)) (l : AftLoc) (hl : l ∈ aftLocate ctx o er kept) :
    ∃ q ∈ kept, l.parentEv = q.1 ∧ l.delta = q.2 := by
  simp only [aftLocate] at hl
  obtain ⟨q', hq', he⟩ := List.mem_map.mp hl
  refine ⟨q'.2, snd_mem_of_mem_enum _ _ hq', ?_, ?_⟩ <;> rw [← he]

lemma aftTimeFilter_mem (len_tw tend : Q) (cutoff : Option Q)
    (cands : List (Event × Q)) (p : Event × Q) :
    p ∈ aftTimeFilter len_tw tend cutoff cands ↔
      p ∈ cands ∧ p.2 ≤ len_tw ∧ p.1.time + p.2 ≤ tend ∧
        ∀ a, cutoff = some a → a < p.1.time + p.2 := by
  cases cutoff with
  | none =>
      simp only [aftTimeFilter, List.mem_filter, decide_eq_true_eq]
      tauto
  | some a =>
      simp only [aftTimeFilter, List.mem_filter, decide_eq_true_eq,
        Option.some.injEq]
      constructor
      · rintro ⟨⟨⟨hc, hL⟩, he⟩, ha⟩
        exact ⟨hc, hL, he, fun x hx => hx ▸ ha⟩
      · rintro ⟨hc, hL, he, ha⟩
        exact ⟨⟨⟨hc, hL⟩, he⟩, ha a rfl⟩

lemma aftCandidates_mem (sources : List Event) (deltas : List Q)
    (q : Event × Q) (hq : q ∈ aftCandidates sources deltas) :
    q.1 ∈ sources ∧ q.2 ∈ deltas := by
  rcases q with ⟨s', d⟩
  obtain ⟨h1, h2⟩ := List.of_mem_zip hq
  refine ⟨?_, h2⟩
  obtain ⟨s, hs, hrep⟩ := List.mem_flatMap.mp h1
  rwa [List.eq_of_mem_replicate hrep]

lemma flatMap_replicate_length (sources : List Event) :
    (sources.flatMap (fun s => List.replicate s.n_aftershocks s)).length
      = (sources.map (fun s => s.n_aftershocks)).sum := by
  induction sources with
  | nil => rfl
  | cons s t ih => simp [ih]

lemma aftCandidates_length (sources : List Event) (deltas : List Q)
    (h : (sources.map (fun s => s.n_aftershocks)).sum ≤ deltas.length) :
    (aftCandidates sources deltas).length
      = (sources.map (fun s => s.n_aftershocks)).sum := by
  rw [aftCandidates, List.length_zip, flatMap_replicate_length]
  omega

lemma generate_aftershocks_mem (ctx : MathCtx) (o : AftOracle)
    (cfg : AftConfig) (sources : List Event) (g : ℕ) (e : Event)
    (he : e ∈ generate_aftershocks ctx o cfg sources g) :
    ∃ q ∈ aftTimeFilter cfg.timewindow_length cfg.timewindow_end
        cfg.auxiliary_end
        (aftCandidates sources
          (o.deltas.take ((sources.map (fun s => s.n_aftershocks)).sum))),
      e.time = q.1.time + q.2 ∧ e.parent = q.1.idx ∧ e.generation = g + 1 ∧
        e.is_background = false := by
  rcases hpoly : cfg.poly with _ | f <;>
    simp only [generate_aftershocks, hpoly] at he
  · obtain ⟨p, hp, hep⟩ := List.mem_map.mp he
    have hmem := snd_mem_of_mem_enum _ _ hp
    obtain ⟨q, hq, h1, h2⟩ := aftLocate_mem _ _ _ _ _ hmem
    subst hep
    exact ⟨q, hq, by rw [← h1, ← h2], by rw [← h1], rfl, rfl⟩
  · obtain ⟨p, hp, hep⟩ := List.mem_map.mp he
    have hmem := snd_mem_of_mem_enum _ _ hp
    have hmem' := (List.mem_filter.mp hmem).1
    obtain ⟨q, hq, h1, h2⟩ := aftLocate_mem _ _ _ _ _ hmem'
    subst hep
    exact ⟨q, hq, by rw [← h1, ← h2], by rw [← h1], rfl, rfl⟩

/-- C6: the aftershock generator pairs each repeated source row with one
entry of the single delta batch of size `sum(n_aftershocks)`; a candidate
survives the time filtering exactly when its delta is at most the window
length, its absolute time (parent time + delta) is at most the window
end, and — when a cutoff is given — its absolute time is strictly after
the cutoff; and every produced child's time is its parent's time plus
its delta. -/
theorem aftershock_batch_and_filters (sources : List Event) (deltas : List Q)
    (len_tw tend : Q) (cutoff : Option Q)
    (hlen : (sources.map (fun s => s.n_aftershocks)).sum ≤ deltas.length) :
    (aftCandidates sources deltas).length
        = (sources.map (fun s => s.n_aftershocks)).sum
    ∧ (∀ p : Event × Q,
        p ∈ aftTimeFilter len_tw tend cutoff (aftCandidates sources deltas) ↔
          p ∈ aftCandidates sources deltas ∧ p.2 ≤ len_tw ∧
            p.1.time + p.2 ≤ tend ∧ ∀ a, cutoff = some a → a < p.1.time + p.2)
    ∧ (∀ (ctx : MathCtx) (o : AftOracle) (cfg : AftConfig) (g : ℕ),
        ∀ e ∈ generate_aftershocks ctx o cfg sources g,
          ∃ q ∈ aftTimeFilter cfg.timewindow_length cfg.timewindow_end
              cfg.auxiliary_end
              (aftCandidates sources
                (o.deltas.take ((sources.map (fun s => s.n_aftershocks)).sum))),
            e.time = q.1.time + q.2 ∧ e.parent = q.1.idx) := by
  refine ⟨aftCandidates_length sources deltas hlen,
    fun p => aftTimeFilter_mem len_tw tend cutoff _ p,
    fun ctx o cfg g e he => ?_⟩
  obtain ⟨q, hq, h1, h2, _, _⟩ := generate_aftershocks_mem ctx o cfg sources g e he
  exact ⟨q, hq, h1, h2⟩

/-- C6 (witness): the theorem applied to one source with one offspring
and a one-element delta batch. -/
theorem aftershock_batch_and_filters_witness :
    ([cexBg].map (fun s => s.n_aftershocks)).sum ≤ ([0] : List Q).length
    ∧ (aftCandidates [cexBg] [0]).length
        = ([cexBg].map (fun s => s.n_aftershocks)).sum :=
  ⟨by decide,
    (aftershock_batch_and_filters [cexBg] [0] 10 20 (some 2) (by decide)).1⟩

/-- C8 (amended): every event produced by the aftershock generator is a
non-background event whose generation is its parent's generation plus
one, and — whenever the sampled deltas are nonnegative — whose time is
at least (not necessarily strictly greater than) its parent's time: the
time equals parent time plus the sampled delta, and the sampler can
return delta 0 (at uniform draw 0), making equality possible. -/
theorem aftershock_generation_parent (ctx : MathCtx) (o : AftOracle)
    (cfg : AftConfig) (sources : List Event) (g : ℕ)
    (hg : ∀ s ∈ sources, s.generation = g)
    (hd : ∀ d ∈ o.deltas, (0 : Q) ≤ d) :
    ∀ e ∈ generate_aftershocks ctx o cfg sources g,
      e.is_background = false ∧
        ∃ s ∈ sources, e.parent = s.idx ∧ e.generation = s.generation + 1 ∧
          s.time ≤ e.time := by
  intro e he
  obtain ⟨q, hq, ht, hp, hgen, hbg⟩ :=
    generate_aftershocks_mem ctx o cfg sources g e he
  have hq' := (aftTimeFilter_mem _ _ _ _ _).mp hq
  obtain ⟨hs, hdel⟩ := aftCandidates_mem _ _ _ hq'.1
  refine ⟨hbg, q.1, hs, hp, ?_, ?_⟩
  · rw [hgen, hg q.1 hs]
  · rw [ht]
    exact Q.le_add_right_of_nonneg (hd q.2 (List.take_subset _ _ hdel))

/-- C8 (amended, witness): the theorem applied to the concrete
one-source run. -/
theorem aftershock_generation_parent_witness :
    (∀ s ∈ [cexBg], s.generation = 0)
    ∧ (∀ d ∈ cexAftOracle.deltas, (0 : Q) ≤ d)
    ∧ (cexChildRaw.is_background = false ∧
        ∃ s ∈ [cexBg], cexChildRaw.parent = s.idx ∧
          cexChildRaw.generation = s.generation + 1 ∧
          s.time ≤ cexChildRaw.time) :=
  ⟨by decide, by decide,
    aftershock_generation_parent modelCtx cexAftOracle cexAftCfg [cexBg] 0
      (by decide) (by decide) cexChildRaw (by decide)⟩

lemma generate_aftershocks_cutoff (ctx : MathCtx) (o : AftOracle)
    (cfg : AftConfig) (sources : List Event) (g : ℕ) (a : Q)
    (hcut : cfg.auxiliary_end = some a) :
    ∀ e ∈ generate_aftershocks ctx o cfg sources g, a < e.time := by
  intro e he
  obtain ⟨q, hq, ht, _, _, _⟩ := generate_aftershocks_mem ctx o cfg sources g e he
  have h := (aftTimeFilter_mem _ _ _ _ _).mp hq
  rw [ht]
  exact h.2.2.2 a hcut

/-- C10: the aftershock generator discards, in the generation in which
they are created, all children at or before the cutoff it is invoked
with; and since the generational loop of `simulate_catalog` always
invokes it with cutoff `primary_start`, every in-loop catalog whose
non-generation-0 events all lie strictly after `primary_start` keeps
this property through the whole loop — only generation-0 events can
carry times at or before `primary_start`. -/
theorem aftershock_primary_cutoff_invariant :
    (∀ (ctx : MathCtx) (o : AftOracle) (cfg : AftConfig)
        (sources : List Event) (g : ℕ) (a : Q), cfg.auxiliary_end = some a →
        ∀ e ∈ generate_aftershocks ctx o cfg sources g, a < e.time)
    ∧ (∀ (ctx : MathCtx) (aftO : ℕ → AftOracle) (cfg : CatConfig)
        (sim_start len_tw : Q) (fuel g : ℕ) (cat out : List Event),
        (∀ e ∈ cat, 1 ≤ e.generation → cfg.primary_start < e.time) →
        simCatalogLoop ctx aftO cfg sim_start len_tw fuel g cat = some out →
        ∀ e ∈ out, 1 ≤ e.generation → cfg.primary_start < e.time) := by
  constructor
  · exact fun ctx o cfg sources g a h =>
      generate_aftershocks_cutoff ctx o cfg sources g a h
  · intro ctx aftO cfg sim_start len_tw fuel
    induction fuel with
    | zero =>
        intro g cat out hinv h
        simp only [simCatalogLoop] at h
        split at h
        · cases h; exact hinv
        · exact absurd h (by simp)
    | succ f ih =>
        intro g cat out hinv h
        simp only [simCatalogLoop] at h
        by_cases hs : (cat.filter (fun e =>
            decide (e.generation = g) && decide (0 < e.n_aftershocks))).isEmpty
        · rw [if_pos hs] at h
          cases h
          exact hinv
        · rw [if_neg hs] at h
          refine ih (g + 1) _ out ?_ h
          intro e hee hge
          rcases List.mem_append.mp hee with hc | ha
          · exact hinv e hc hge
          · have h1 := (List.mem_filter.mp ha).1
            obtain ⟨e₀, he₀, heq⟩ := List.mem_map.mp h1
            have hcut : cfg.primary_start < e₀.time :=
              generate_aftershocks_cutoff ctx (aftO g) _ _ g cfg.primary_start
                rfl e₀ he₀
            subst heq
            exact hcut

/-- C10 (witness): the cutoff conjunct applied to the concrete run. -/
theorem aftershock_primary_cutoff_witness :
    cexAftCfg.auxiliary_end = some 2
    ∧ cexChildRaw ∈ generate_aftershocks modelCtx cexAftOracle cexAftCfg [cexBg] 0
    ∧ (2 : Q) < cexChildRaw.time :=
  ⟨rfl, by decide,
    aftershock_primary_cutoff_invariant.1 modelCtx cexAftOracle cexAftCfg
      [cexBg] 0 2 rfl cexChildRaw (by decide)⟩

/-- C8 (counterexample): the approximate temporal sampler returns delay
0 at uniform draw p = 0 (`np.random.uniform` can return exactly 0), and
a concrete `simulate_catalog` run whose single sampled delta is 0
produces a catalog containing a non-background child whose time equals —
is not strictly greater than — its parent's time. -/
theorem aftershock_time_counterexample :
    inv_time_cdf_approx 0 1 1 1 = 0
    ∧ simulate_catalog modelCtx cexCatOracle cexCatCfg none none 4 4
        = some [cexBg, cexChild]
    ∧ cexChild.is_background = false
    ∧ cexChild.parent = cexBg.idx
    ∧ cexChild.generation = cexBg.generation + 1
    ∧ cexChild.time = cexBg.time
    ∧ ¬ cexBg.time < cexChild.time := by
  refine ⟨?_, by decide, by decide, by decide, by decide, by decide, by decide⟩
  rw [inv_time_cdf_approx]
  norm_num [Real.one_rpow]

/-- C9 (code evaluation at the failing input): with c = 1, τ = 1, ω = 1
and uniform draw p = 4/5, the branch condition `p < tau` of
`inv_time_cdf_approx` holds, so the first (power-law) closed-form branch
is used — yet the resulting delay is 3/2, which does not fall below
τ = 1. The code selects the branch by comparing the probability `p` with
the time constant `tau`; selecting by "sampled delay below τ" would
require `p < k1·part_a` (= 2/3 here, and the two branches agree exactly
at delay τ there), so at p = 4/5 the second branch should have been
used. -/
theorem inv_time_cdf_branch_failing :
    ((4 : ℝ)/5 < 1)
    ∧ inv_time_cdf_approx (4/5) 1 1 1 = 3/2
    ∧ ¬ ((3 : ℝ)/2 < 1) := by
  refine ⟨by norm_num, ?_, by norm_num⟩
  rw [inv_time_cdf_approx]
  norm_num [Real.one_rpow]
  rw [show Real.exp 1 * ((1:ℝ)/4) * (Real.exp 1)⁻¹ = 1/4 from by
    field_simp; ring]
  norm_num

end Vetas

